import Mathlib

/-!
Verification of the concurrent account-provisioning pipeline of `cloud.py`:
the rotating usage-capped proxy pool (`load_proxies`, `get_next_proxy`),
activation-link extraction and inbox polling (`extract_activation_link`,
`TempMailService.check_inbox_for_activation_link`), the per-job retry flow
(`create_single_account`), the interactive run parameters (`main`), and the
threaded worker pool with shared result aggregation (`thread_worker`).

Text values coming from Python strings are modelled as `List Char` (or as
`String` where only equality is needed), so that every definition is
executable by the kernel.
-/

/-! ### Proxy pool: `load_proxies` / `get_next_proxy` -/

/-- Python constant `MAX_PROXY_USES = 15`: use each proxy this many times,
then retire it. `get_next_proxy` below is parameterized by the cap so that
the pool properties can be stated for every cap; this constant is the value
used by the script. -/
def MAX_PROXY_USES : Nat := 15

/-- Insertion-order deduplication: the key list of the Python dict
`PROXY_USAGE = {p: 0 for p in proxies}`, which keys each distinct proxy
string once, in order of first occurrence. -/
def pyDedup : List String → List String
  | [] => []
  | p :: ps => p :: (pyDedup ps).filter (fun q => q ≠ p)

theorem mem_pyDedup {p : String} : ∀ {l : List String}, p ∈ pyDedup l ↔ p ∈ l := by
  intro l
  induction l with
  | nil => simp [pyDedup]
  | cons q ps ih =>
    simp only [pyDedup, List.mem_cons, List.mem_filter, ih, decide_eq_true_eq]
    by_cases hpq : p = q <;> simp [hpq]

theorem nodup_pyDedup : ∀ (l : List String), (pyDedup l).Nodup := by
  intro l
  induction l with
  | nil => simp [pyDedup]
  | cons q ps ih =>
    simp only [pyDedup, List.nodup_cons]
    refine ⟨fun hmem => ?_, List.Nodup.filter _ ih⟩
    simp [List.mem_filter] at hmem

theorem length_pyDedup_le : ∀ (l : List String), (pyDedup l).length ≤ l.length := by
  intro l
  induction l with
  | nil => simp [pyDedup]
  | cons q ps ih =>
    simp only [pyDedup, List.length_cons]
    exact Nat.succ_le_succ (le_trans (List.length_filter_le _ _) ih)

/-- The shared proxy-pool state: `PROXIES_LIST` (the empty list models
`PROXIES_LIST = None`, i.e. proxies disabled or none loaded), the usage dict
`PROXY_USAGE` (keyed by the distinct proxies of `list`; modelled as a total
function that is zero off those keys), and the round-robin cursor
`PROXY_INDEX`. -/
structure ProxyPool where
  list : List String
  usage : String → Nat
  index : Nat

/-- Pointwise dict write, `PROXY_USAGE[p] = v`. -/
def setUsage (f : String → Nat) (p : String) (v : Nat) : String → Nat :=
  fun q => if q = p then v else f q

/-- The `for _ in range(n)` scan inside `get_next_proxy`: starting at cursor
`idx`, advance the cursor up to `fuel` times; as soon as the cursor lands on
a proxy whose usage is below the cap, return it together with the advanced
cursor; otherwise return the cursor left after the whole scan. -/
def proxyScan (maxUses : Nat) (list : List String) (usage : String → Nat) :
    Nat → Nat → Option String × Nat
  | idx, 0 => (none, idx)
  | idx, fuel + 1 =>
    let n := list.length
    let p := list.getD (idx % n) ""
    let idx2 := (idx + 1) % n
    if usage p < maxUses then (some p, idx2)
    else proxyScan maxUses list usage idx2 fuel

/-- Python `get_next_proxy()`: returns `None` if there is no proxy list or
every proxy has reached the cap; otherwise round-robins from `PROXY_INDEX`
across all records, incrementing the usage of the first eligible record and
returning it; the unreachable defensive fallback returns the first available
record. The result is paired with the updated pool state. -/
def get_next_proxy (maxUses : Nat) (s : ProxyPool) : Option String × ProxyPool :=
  if s.list.isEmpty then (none, s)
  else
    match (pyDedup s.list).filter (fun p => s.usage p < maxUses) with
    | [] => (none, s)
    | a :: _ =>
      match proxyScan maxUses s.list s.usage s.index s.list.length with
      | (some p, idx2) => (some p, ⟨s.list, setUsage s.usage p (s.usage p + 1), idx2⟩)
      | (none, idx2) => (some a, ⟨s.list, setUsage s.usage a (s.usage a + 1), idx2⟩)

/-- The pool state right after `main` sets `PROXIES_LIST` from
`load_proxies()`: usage dict all zero, cursor `PROXY_INDEX = 0`; a `none`
load result (no proxies) is the empty list. -/
def initPool (loaded : Option (List String)) : ProxyPool :=
  ⟨loaded.getD [], fun _ => 0, 0⟩

/-- Pool state after `k` successive `get_next_proxy` calls. -/
def stateAfter (maxUses : Nat) (s : ProxyPool) : Nat → ProxyPool
  | 0 => s
  | k + 1 => (get_next_proxy maxUses (stateAfter maxUses s k)).2

/-- Result of the `k`-th `get_next_proxy` call (0-based). -/
def callAt (maxUses : Nat) (s : ProxyPool) (k : Nat) : Option String :=
  (get_next_proxy maxUses (stateAfter maxUses s k)).1

/-- Results of the first `k` calls, in order. -/
def callResults (maxUses : Nat) (s : ProxyPool) : Nat → List (Option String)
  | 0 => []
  | k + 1 => callResults maxUses s k ++ [callAt maxUses s k]

/-- Number of successful allocations among the first `k` calls. -/
def successCount (maxUses : Nat) (s : ProxyPool) (k : Nat) : Nat :=
  (callResults maxUses s k).countP Option.isSome

/-- Total usage recorded in the dict (summed over its key list). -/
def usageSum (s : ProxyPool) : Nat :=
  ((pyDedup s.list).map s.usage).sum

theorem proxyScan_some {maxUses : Nat} {list : List String} {usage : String → Nat} :
    ∀ {fuel idx p idx2}, proxyScan maxUses list usage idx fuel = (some p, idx2) →
      usage p < maxUses ∧ (list ≠ [] → p ∈ list) := by
  intro fuel
  induction fuel with
  | zero => intro idx p idx2 h; simp [proxyScan] at h
  | succ m ih =>
    intro idx p idx2 h
    rw [proxyScan] at h
    by_cases hc : usage (list.getD (idx % list.length) "") < maxUses
    · simp only [hc, if_true, Prod.mk.injEq, Option.some.injEq] at h
      obtain ⟨rfl, rfl⟩ := h
      refine ⟨hc, fun hne => ?_⟩
      have hlen : 0 < list.length := List.length_pos.2 hne
      have hlt : idx % list.length < list.length := Nat.mod_lt _ hlen
      rw [List.getD_eq_getElem list "" hlt]
      exact List.getElem_mem hlt
    · simp only [hc, if_false] at h
      exact ih h

theorem get_next_proxy_spec (maxUses : Nat) (s : ProxyPool) :
    get_next_proxy maxUses s = (none, s) ∨
      (∃ p idx2, p ∈ s.list ∧ s.usage p < maxUses ∧
        get_next_proxy maxUses s =
          (some p, ⟨s.list, setUsage s.usage p (s.usage p + 1), idx2⟩)) := by
  unfold get_next_proxy
  split
  · exact Or.inl rfl
  next hne =>
    have hlist : s.list ≠ [] := by
      intro hnil; rw [hnil] at hne; simp at hne
    split
    · exact Or.inl rfl
    next a rest havail =>
      have ha : a ∈ (pyDedup s.list).filter (fun p => s.usage p < maxUses) := by
        rw [havail]; exact List.mem_cons_self a rest
      rw [List.mem_filter] at ha
      have haMem : a ∈ s.list := mem_pyDedup.1 ha.1
      have haLt : s.usage a < maxUses := by simpa using ha.2
      split
      next p2 idx2 hscan =>
        obtain ⟨hlt, hmem⟩ := proxyScan_some hscan
        exact Or.inr ⟨p2, idx2, hmem hlist, hlt, rfl⟩
      next idx2 hscan =>
        exact Or.inr ⟨a, idx2, haMem, haLt, rfl⟩

theorem get_next_proxy_none_state {maxUses : Nat} {s : ProxyPool}
    (h : (get_next_proxy maxUses s).1 = none) : (get_next_proxy maxUses s).2 = s := by
  rcases get_next_proxy_spec maxUses s with hspec | ⟨p, idx2, _, _, hspec⟩
  · rw [hspec]
  · rw [hspec] at h; simp at h

theorem get_next_proxy_some {maxUses : Nat} {s : ProxyPool} {p : String}
    (h : (get_next_proxy maxUses s).1 = some p) :
    p ∈ s.list ∧ s.usage p < maxUses ∧
      ∃ idx2, get_next_proxy maxUses s =
        (some p, ⟨s.list, setUsage s.usage p (s.usage p + 1), idx2⟩) := by
  rcases get_next_proxy_spec maxUses s with hspec | ⟨q, idx2, hmem, hlt, hspec⟩
  · rw [hspec] at h; simp at h
  · rw [hspec] at h
    simp only at h
    obtain rfl : q = p := Option.some.inj h
    exact ⟨hmem, hlt, idx2, hspec⟩

theorem get_next_proxy_list (maxUses : Nat) (s : ProxyPool) :
    (get_next_proxy maxUses s).2.list = s.list := by
  rcases get_next_proxy_spec maxUses s with hspec | ⟨q, idx2, _, _, hspec⟩ <;> rw [hspec]

theorem stateAfter_list (maxUses : Nat) (s : ProxyPool) (k : Nat) :
    (stateAfter maxUses s k).list = s.list := by
  induction k with
  | zero => rfl
  | succ k ih => rw [stateAfter, get_next_proxy_list, ih]

theorem get_next_proxy_usage_le {maxUses : Nat} {s : ProxyPool}
    (h : ∀ p, s.usage p ≤ maxUses) : ∀ p, (get_next_proxy maxUses s).2.usage p ≤ maxUses := by
  intro p
  rcases get_next_proxy_spec maxUses s with hspec | ⟨q, idx2, _, hlt, hspec⟩
  · rw [hspec]; exact h p
  · rw [hspec]
    simp only [setUsage]
    by_cases hpq : p = q
    · subst hpq; rw [if_pos rfl]; omega
    · rw [if_neg hpq]; exact h p

theorem stateAfter_usage_le (maxUses : Nat) (loaded : Option (List String)) (k : Nat) :
    ∀ p, (stateAfter maxUses (initPool loaded) k).usage p ≤ maxUses := by
  induction k with
  | zero => intro p; exact Nat.zero_le _
  | succ k ih => exact get_next_proxy_usage_le ih

theorem callResults_count (maxUses : Nat) (loaded : Option (List String)) (k : Nat) (p : String) :
    (callResults maxUses (initPool loaded) k).count (some p)
      = (stateAfter maxUses (initPool loaded) k).usage p := by
  induction k with
  | zero => rfl
  | succ k ih =>
    rw [callResults, List.count_append, ih]
    show _ = (get_next_proxy maxUses (stateAfter maxUses (initPool loaded) k)).2.usage p
    rcases get_next_proxy_spec maxUses (stateAfter maxUses (initPool loaded) k) with
      hspec | ⟨q, idx2, _, _, hspec⟩
    · rw [hspec]
      have hr : callAt maxUses (initPool loaded) k = none := by
        unfold callAt; rw [hspec]
      rw [hr]
      simp [List.count_singleton]
    · rw [hspec]
      have hr : callAt maxUses (initPool loaded) k = some q := by
        unfold callAt; rw [hspec]
      rw [hr]
      simp only [setUsage]
      by_cases hpq : p = q
      · subst hpq
        simp [List.count_singleton]
      · rw [if_neg hpq]
        have hbeq : ((some q : Option String) == some p) = false := by
          simp only [beq_eq_false_iff_ne, ne_eq, Option.some.injEq]
          intro hq
          exact hpq hq.symm
        simp [List.count_singleton, hbeq]

theorem map_setUsage_of_not_mem {l : List String} {f : String → Nat} {p : String} {v : Nat}
    (hp : p ∉ l) : l.map (setUsage f p v) = l.map f := by
  induction l with
  | nil => rfl
  | cons a t ih =>
    simp only [List.mem_cons, not_or] at hp
    have hap : a ≠ p := fun h => hp.1 h.symm
    simp only [List.map_cons, ih hp.2, setUsage, if_neg hap]

theorem sum_map_setUsage {l : List String} (hnd : l.Nodup) (f : String → Nat) {p : String}
    (hp : p ∈ l) : (l.map (setUsage f p (f p + 1))).sum = (l.map f).sum + 1 := by
  induction l with
  | nil => cases hp
  | cons a t ih =>
    rw [List.nodup_cons] at hnd
    rcases List.mem_cons.1 hp with rfl | hpt
    · rw [List.map_cons, List.map_cons, List.sum_cons, List.sum_cons,
        map_setUsage_of_not_mem hnd.1]
      simp [setUsage]
      omega
    · have hap : a ≠ p := fun h => hnd.1 (h ▸ hpt)
      rw [List.map_cons, List.map_cons, List.sum_cons, List.sum_cons, ih hnd.2 hpt]
      simp only [setUsage, if_neg hap]
      omega

theorem successCount_eq_usageSum (maxUses : Nat) (loaded : Option (List String)) (k : Nat) :
    successCount maxUses (initPool loaded) k = usageSum (stateAfter maxUses (initPool loaded) k) := by
  induction k with
  | zero =>
    simp [successCount, callResults, usageSum, stateAfter, initPool]
  | succ k ih =>
    set s := stateAfter maxUses (initPool loaded) k with hs
    rw [successCount, callResults, List.countP_append, ← successCount, ih]
    show _ = usageSum (get_next_proxy maxUses s).2
    rcases get_next_proxy_spec maxUses s with hspec | ⟨q, idx2, hmem, _, hspec⟩
    · have hr : callAt maxUses (initPool loaded) k = none := by
        unfold callAt; rw [← hs, hspec]
      rw [hr, hspec]
      simp
    · have hr : callAt maxUses (initPool loaded) k = some q := by
        unfold callAt; rw [← hs, hspec]
      rw [hr, hspec]
      simp only [usageSum]
      rw [sum_map_setUsage (nodup_pyDedup s.list) s.usage (mem_pyDedup.2 hmem)]
      simp [List.countP_cons]

theorem list_sum_le_length_mul {l : List Nat} {C : Nat} (h : ∀ x ∈ l, x ≤ C) :
    l.sum ≤ l.length * C := by
  induction l with
  | nil => simp
  | cons a t ih =>
    simp only [List.sum_cons, List.length_cons]
    have ha := h a (List.mem_cons_self a t)
    have ht := ih (fun x hx => h x (List.mem_cons_of_mem a hx))
    calc a + t.sum ≤ C + t.length * C := Nat.add_le_add ha ht
    _ = (t.length + 1) * C := by ring

theorem list_all_eq_of_sum_eq {l : List Nat} {C : Nat} (h : ∀ x ∈ l, x ≤ C)
    (hsum : l.sum = l.length * C) : ∀ x ∈ l, x = C := by
  induction l with
  | nil => intro x hx; cases hx
  | cons a t ih =>
    simp only [List.sum_cons, List.length_cons] at hsum
    have ha := h a (List.mem_cons_self a t)
    have ht : t.sum ≤ t.length * C :=
      list_sum_le_length_mul (fun x hx => h x (List.mem_cons_of_mem a hx))
    have haC : a = C := by nlinarith
    have htsum : t.sum = t.length * C := by
      rw [haC] at hsum
      nlinarith
    intro x hx
    rcases List.mem_cons.1 hx with rfl | hxt
    · exact haC
    · exact ih (fun y hy => h y (List.mem_cons_of_mem a hy)) htsum x hxt

theorem get_next_proxy_none_of_filter_nil {maxUses : Nat} {s : ProxyPool}
    (h : (pyDedup s.list).filter (fun p => s.usage p < maxUses) = []) :
    (get_next_proxy maxUses s).1 = none := by
  unfold get_next_proxy
  split
  · rfl
  · rw [h]

theorem callAt_none_stable {maxUses : Nat} {s : ProxyPool} {k : Nat}
    (h : callAt maxUses s k = none) :
    ∀ d, callAt maxUses s (k + d) = none ∧ stateAfter maxUses s (k + d) = stateAfter maxUses s k := by
  intro d
  induction d with
  | zero => exact ⟨h, rfl⟩
  | succ d ih =>
    have heq : k + (d + 1) = (k + d) + 1 := by omega
    have hstate : stateAfter maxUses s (k + (d + 1)) = stateAfter maxUses s k := by
      rw [heq, stateAfter, get_next_proxy_none_state ih.1, ih.2]
    refine ⟨?_, hstate⟩
    unfold callAt
    rw [hstate, ← ih.2]
    exact ih.1

/-- C1: for every freshly loaded pool of `N` records and every usage cap
`C`, `get_next_proxy` never returns the same proxy string more than `C`
times in total, every record's usage count never exceeds `C`, and as soon as
`N * C` calls have been successful every further call returns `none`; the
script's cap `MAX_PROXY_USES` is 15. -/
theorem proxy_pool_cap_and_exhaustion (C : Nat) (proxies : List String) (k : Nat) :
    (∀ p, (callResults C (initPool (some proxies)) k).count (some p) ≤ C) ∧
    (∀ p, (stateAfter C (initPool (some proxies)) k).usage p ≤ C) ∧
    (successCount C (initPool (some proxies)) k = proxies.length * C →
      ∀ k2, k ≤ k2 → callAt C (initPool (some proxies)) k2 = none) ∧
    MAX_PROXY_USES = 15 := by
  refine ⟨?_, stateAfter_usage_le C (some proxies) k, ?_, rfl⟩
  · intro p
    rw [callResults_count]
    exact stateAfter_usage_le C (some proxies) k p
  · intro hfull k2 hk2
    have hbase : callAt C (initPool (some proxies)) k = none := by
      set s := stateAfter C (initPool (some proxies)) k with hs
      have hlist : s.list = proxies := stateAfter_list C (initPool (some proxies)) k
      have husage : ∀ p, s.usage p ≤ C := stateAfter_usage_le C (some proxies) k
      have hsum : ((pyDedup s.list).map s.usage).sum = proxies.length * C := by
        have := successCount_eq_usageSum C (some proxies) k
        rw [hfull] at this
        simpa [usageSum] using this.symm
      have hfilter : (pyDedup s.list).filter (fun p => s.usage p < C) = [] := by
        rcases Nat.eq_zero_or_pos C with hC | hC
        · subst hC
          apply List.filter_eq_nil_iff.2
          intro a _
          simp
        · have hlen : ((pyDedup s.list).map s.usage).length ≤ proxies.length := by
            rw [List.length_map, hlist]
            exact length_pyDedup_le proxies
          have hle : ∀ x ∈ (pyDedup s.list).map s.usage, x ≤ C := by
            intro x hx
            obtain ⟨q, _, rfl⟩ := List.mem_map.1 hx
            exact husage q
          have hsumle := list_sum_le_length_mul hle
          have hsum2 : ((pyDedup s.list).map s.usage).sum
              = ((pyDedup s.list).map s.usage).length * C := by nlinarith
          have hall := list_all_eq_of_sum_eq hle hsum2
          apply List.filter_eq_nil_iff.2
          intro a ha
          have : s.usage a = C := hall _ (List.mem_map.2 ⟨a, ha, rfl⟩)
          simp [this]
      exact get_next_proxy_none_of_filter_nil hfilter
    have hstable := (callAt_none_stable hbase (k2 - k)).1
    rwa [Nat.add_sub_cancel' hk2] at hstable

/-- Witness for C1 at a pool of one proxy with cap 1: after the single
successful allocation the pool is exhausted and the next calls return
`none`, and the proxy was returned at most once. -/
theorem proxy_pool_cap_and_exhaustion_witness :
    callAt 1 (initPool (some ["socks5://1.2.3.4:1080"])) 2 = none ∧
      (callResults 1 (initPool (some ["socks5://1.2.3.4:1080"])) 2).count
        (some "socks5://1.2.3.4:1080") ≤ 1 :=
  ⟨(proxy_pool_cap_and_exhaustion 1 ["socks5://1.2.3.4:1080"] 1).2.2.1 (by decide) 2 (by decide),
    (proxy_pool_cap_and_exhaustion 1 ["socks5://1.2.3.4:1080"] 2).1 "socks5://1.2.3.4:1080"⟩

theorem get_next_proxy_at_cursor {maxUses : Nat} {s : ProxyPool}
    (hne : s.list ≠ []) (hidx : s.index < s.list.length)
    (hlt : s.usage (s.list.getD s.index "") < maxUses) :
    get_next_proxy maxUses s =
      (some (s.list.getD s.index ""),
        ⟨s.list, setUsage s.usage (s.list.getD s.index "")
            (s.usage (s.list.getD s.index "") + 1),
          (s.index + 1) % s.list.length⟩) := by
  have hmemCursor : s.list.getD s.index "" ∈ s.list := by
    rw [List.getD_eq_getElem s.list "" hidx]
    exact List.getElem_mem hidx
  have hmemFilter : s.list.getD s.index ""
      ∈ (pyDedup s.list).filter (fun p => s.usage p < maxUses) := by
    rw [List.mem_filter]
    exact ⟨mem_pyDedup.2 hmemCursor, by simpa using hlt⟩
  have hscan : proxyScan maxUses s.list s.usage s.index s.list.length
      = (some (s.list.getD s.index ""), (s.index + 1) % s.list.length) := by
    cases hl : s.list.length with
    | zero => rw [hl] at hidx; omega
    | succ m =>
      rw [proxyScan, Nat.mod_eq_of_lt hidx, if_pos hlt, hl]
  unfold get_next_proxy
  rw [if_neg (by simp [hne])]
  split
  next hnil => rw [hnil] at hmemFilter; cases hmemFilter
  next a rest hcons => rw [hscan]

theorem roundRobinAux (maxUses : Nat) (proxies : List String) (hne : proxies ≠ []) :
    ∀ j, (∀ j2, j2 < j → (stateAfter maxUses (initPool (some proxies)) j2).usage
        (proxies.getD (j2 % proxies.length) "") < maxUses) →
      (stateAfter maxUses (initPool (some proxies)) j).index = j % proxies.length := by
  intro j
  induction j with
  | zero => intro _; simp [stateAfter, initPool]
  | succ j ih =>
    intro h
    have hidx := ih (fun j2 hj2 => h j2 (Nat.lt_succ_of_lt hj2))
    set s := stateAfter maxUses (initPool (some proxies)) j with hs
    have hlist : s.list = proxies := stateAfter_list _ _ _
    have hidxlt : s.index < s.list.length := by
      rw [hidx, hlist]
      exact Nat.mod_lt _ (List.length_pos.2 hne)
    have hcur : s.usage (s.list.getD s.index "") < maxUses := by
      rw [hlist, hidx]
      exact h j (Nat.lt_succ_self j)
    show (get_next_proxy maxUses s).2.index = (j + 1) % proxies.length
    rw [get_next_proxy_at_cursor (by rw [hlist]; exact hne) hidxlt hcur]
    simp only []
    rw [hidx, hlist, Nat.mod_add_mod]

/-- C6: absent exhaustion (every usage count met along the way is below the
cap), consecutive `get_next_proxy` calls on a freshly loaded pool return the
records in cursor order, wrapping modulo the pool size: the `j`-th call
returns record `j % N`. -/
theorem proxy_round_robin (maxUses : Nat) (proxies : List String) (hne : proxies ≠ []) (k : Nat)
    (hfree : ∀ j, j ≤ k → (stateAfter maxUses (initPool (some proxies)) j).usage
        (proxies.getD (j % proxies.length) "") < maxUses) :
    ∀ j, j ≤ k → callAt maxUses (initPool (some proxies)) j
        = some (proxies.getD (j % proxies.length) "") := by
  intro j hj
  have hidx := roundRobinAux maxUses proxies hne j
    (fun j2 hj2 => hfree j2 (le_trans (Nat.le_of_lt hj2) hj))
  set s := stateAfter maxUses (initPool (some proxies)) j with hs
  have hlist : s.list = proxies := stateAfter_list _ _ _
  have hidxlt : s.index < s.list.length := by
    rw [hidx, hlist]
    exact Nat.mod_lt _ (List.length_pos.2 hne)
  have hcur : s.usage (s.list.getD s.index "") < maxUses := by
    rw [hlist, hidx]
    exact hfree j hj
  unfold callAt
  rw [← hs, get_next_proxy_at_cursor (by rw [hlist]; exact hne) hidxlt hcur]
  rw [hlist, hidx]

/-- Witness for C6 on a two-record pool at the default cap: the first three
calls return records 0, 1 and 0 again (wrapping modulo the pool size). -/
theorem proxy_round_robin_witness :
    callAt MAX_PROXY_USES (initPool (some ["http://a:1", "http://b:2"])) 0
        = some "http://a:1" ∧
      callAt MAX_PROXY_USES (initPool (some ["http://a:1", "http://b:2"])) 1
        = some "http://b:2" ∧
      callAt MAX_PROXY_USES (initPool (some ["http://a:1", "http://b:2"])) 2
        = some "http://a:1" :=
  ⟨proxy_round_robin MAX_PROXY_USES ["http://a:1", "http://b:2"] (by decide) 2 (by decide)
      0 (by decide),
    proxy_round_robin MAX_PROXY_USES ["http://a:1", "http://b:2"] (by decide) 2 (by decide)
      1 (by decide),
    proxy_round_robin MAX_PROXY_USES ["http://a:1", "http://b:2"] (by decide) 2 (by decide)
      2 (by decide)⟩

/-- Whitespace stripping at both ends, Python `str.strip()`. -/
def pyStrip (l : List Char) : List Char :=
  ((l.dropWhile Char.isWhitespace).reverse.dropWhile Char.isWhitespace).reverse

/-- One raw file line after `line = raw.strip()`. -/
def stripLine (s : String) : String :=
  String.mk (pyStrip s.toList)

/-- Python substring test `needle in hay`, on character lists. -/
def hasSubstr (pat : List Char) : List Char → Bool
  | [] => pat.isEmpty
  | c :: t => pat.isPrefixOf (c :: t) || hasSubstr pat t

/-- The scheme separator `"://"` every valid proxy line must contain. -/
def schemeSep : List Char := "://".toList

/-- The parsing loop of `load_proxies`: strip each raw line, skip empty
lines, skip (with a logged warning) lines missing `"://"`, collect the rest
in order. -/
def parseProxyLines (lines : List String) : List String :=
  (lines.map stripLine).filter (fun l => !(l == "") && hasSubstr schemeSep l.toList)

/-- Python `load_proxies`: `fileExists = false` models the
`FileNotFoundError` path (logged, the run continues without proxies); an
empty proxy list is returned as `None`. -/
def load_proxies (fileExists : Bool) (lines : List String) : Option (List String) :=
  let proxies := if fileExists then parseProxyLines lines else []
  if proxies.isEmpty then none else some proxies

theorem get_next_proxy_of_nil {maxUses : Nat} {s : ProxyPool} (h : s.list = []) :
    (get_next_proxy maxUses s).1 = none := by
  unfold get_next_proxy
  rw [if_pos (by simp [h])]

/-- C8: loading skips exactly the lines lacking the `"://"` separator (and
the blank lines) while still loading every valid line from the same source;
a missing proxy-list file, or a source with no valid line, loads as `none`;
and in that no-proxies mode every allocation call returns `none` instead of
aborting. -/
theorem proxy_load_skips_and_degrades (lines : List String) :
    (∀ p ∈ parseProxyLines lines, hasSubstr schemeSep p.toList = true ∧ p ≠ "") ∧
    (∀ l ∈ lines, stripLine l ≠ "" → hasSubstr schemeSep (stripLine l).toList = true →
      stripLine l ∈ parseProxyLines lines) ∧
    load_proxies false lines = none ∧
    (parseProxyLines lines = [] → ∀ b, load_proxies b lines = none) ∧
    (∀ maxUses k, callAt maxUses (initPool none) k = none) := by
  refine ⟨?_, ?_, rfl, ?_, ?_⟩
  · intro p hp
    rw [parseProxyLines, List.mem_filter] at hp
    have hcond := hp.2
    simp only [Bool.and_eq_true, Bool.not_eq_true', beq_eq_false_iff_ne, ne_eq] at hcond
    exact ⟨hcond.2, hcond.1⟩
  · intro l hl hne hsep
    rw [parseProxyLines, List.mem_filter]
    refine ⟨List.mem_map.2 ⟨l, hl, rfl⟩, ?_⟩
    simp only [Bool.and_eq_true, Bool.not_eq_true', beq_eq_false_iff_ne, ne_eq]
    exact ⟨hne, hsep⟩
  · intro hnil b
    cases b <;> simp [load_proxies, hnil]
  · intro maxUses k
    unfold callAt
    exact get_next_proxy_of_nil (stateAfter_list maxUses (initPool none) k)

/-- Witness for C8: from a source with one malformed and one valid line, the
valid line (stripped) is loaded; a missing file loads as `none`; and with no
proxies every allocation returns `none`. -/
theorem proxy_load_skips_and_degrades_witness :
    "socks5://1.2.3.4:1080" ∈ parseProxyLines ["badline", " socks5://1.2.3.4:1080 "] ∧
      load_proxies false ["badline"] = none ∧
      callAt MAX_PROXY_USES (initPool none) 0 = none := by
  refine ⟨?_, (proxy_load_skips_and_degrades ["badline"]).2.2.1, 
    (proxy_load_skips_and_degrades []).2.2.2.2 MAX_PROXY_USES 0⟩
  have h := (proxy_load_skips_and_degrades ["badline", " socks5://1.2.3.4:1080 "]).2.1
    " socks5://1.2.3.4:1080 " (by decide) (by decide) (by decide)
  have hstr : stripLine " socks5://1.2.3.4:1080 " = "socks5://1.2.3.4:1080" := by decide
  rwa [hstr] at h

/-! ### Activation-link extraction: `extract_activation_link` and the inbox scan -/

/-- The literal part `https://filen\.io/activate/` of the activation regex. -/
def activationLit : List Char := "https://filen.io/activate/".toList

/-- The regex character class `[a-f0-9]`. -/
def isHexLower (c : Char) : Bool :=
  ('a' ≤ c && c ≤ 'f') || ('0' ≤ c && c ≤ '9')

/-- Whether the activation regex matches at the start of `s`; if so, the
matched text `m.group(0)`: the literal followed by exactly 32 `[a-f0-9]`
characters. -/
def matchActivationAt (s : List Char) : Option (List Char) :=
  if activationLit.isPrefixOf s = true then
    if 32 ≤ (s.drop activationLit.length).length ∧
        ((s.drop activationLit.length).take 32).all isHexLower = true then
      some (activationLit ++ (s.drop activationLit.length).take 32)
    else none
  else none

/-- Leftmost-match search, `re.search`: try offset 0 first, then recurse. -/
def searchActivation : List Char → Option (List Char)
  | [] => none
  | c :: cs =>
    match matchActivationAt (c :: cs) with
    | some m => some m
    | none => searchActivation cs

/-- Python `extract_activation_link(body)`: `re.search` of the fixed pattern
over `body or ""` (a `None` body is treated as empty), returning the
leftmost match if any. -/
def extract_activation_link (body : Option (List Char)) : Option (List Char) :=
  searchActivation (body.getD [])

/-- The activation pattern matches at offset `i` of `s`: the literal prefix
followed by at least 32 characters of the class `[a-f0-9]`. -/
def ActivationMatchAt (s : List Char) (i : Nat) : Prop :=
  activationLit.isPrefixOf (s.drop i) = true ∧
  32 ≤ ((s.drop i).drop activationLit.length).length ∧
  (((s.drop i).drop activationLit.length).take 32).all isHexLower = true

/-- The matched text at offset `i`: the literal plus the next 32 characters. -/
def activationTextAt (s : List Char) (i : Nat) : List Char :=
  activationLit ++ ((s.drop i).drop activationLit.length).take 32

theorem matchActivationAt_eq_some {t m : List Char} :
    matchActivationAt t = some m ↔
      (activationLit.isPrefixOf t = true ∧ 32 ≤ (t.drop activationLit.length).length ∧
        ((t.drop activationLit.length).take 32).all isHexLower = true ∧
        m = activationLit ++ (t.drop activationLit.length).take 32) := by
  unfold matchActivationAt
  split_ifs with h1 h2
  · simp only [Option.some.injEq]
    constructor
    · intro h
      exact ⟨h1, h2.1, h2.2, h.symm⟩
    · rintro ⟨-, -, -, h⟩
      exact h.symm
  · constructor
    · intro h; cases h
    · rintro ⟨-, ha, hb, -⟩
      exact absurd ⟨ha, hb⟩ h2
  · constructor
    · intro h; cases h
    · rintro ⟨ha, -, -, -⟩
      exact absurd ha h1

theorem matchActivationAt_none_iff {s : List Char} {i : Nat} :
    matchActivationAt (s.drop i) = none ↔ ¬ ActivationMatchAt s i := by
  constructor
  · intro h hmatch
    obtain ⟨h1, h2, h3⟩ := hmatch
    have hsome := matchActivationAt_eq_some.2 ⟨h1, h2, h3, rfl⟩
    rw [h] at hsome
    cases hsome
  · intro h
    cases hm : matchActivationAt (s.drop i) with
    | none => rfl
    | some m =>
      obtain ⟨h1, h2, h3, -⟩ := matchActivationAt_eq_some.1 hm
      exact absurd ⟨h1, h2, h3⟩ h

theorem searchActivation_none_iff : ∀ (s : List Char),
    searchActivation s = none ↔ ∀ i, matchActivationAt (s.drop i) = none := by
  intro s
  induction s with
  | nil =>
    constructor
    · intro _ i
      rw [List.drop_nil]
      rfl
    · intro _
      rfl
  | cons c cs ih =>
    rw [searchActivation]
    cases hm : matchActivationAt (c :: cs) with
    | some m =>
      simp only []
      constructor
      · intro hcontra; cases hcontra
      · intro hall
        have h0 := hall 0
        rw [List.drop_zero, hm] at h0
        cases h0
    | none =>
      simp only [ih]
      constructor
      · intro hall i
        cases i with
        | zero => rw [List.drop_zero]; exact hm
        | succ i2 => rw [List.drop_succ_cons]; exact hall i2
      · intro hall i
        have := hall (i + 1)
        rwa [List.drop_succ_cons] at this

theorem searchActivation_some : ∀ (s m : List Char),
    searchActivation s = some m →
      ∃ i, matchActivationAt (s.drop i) = some m ∧
        ∀ j < i, matchActivationAt (s.drop j) = none := by
  intro s
  induction s with
  | nil => intro m h; cases h
  | cons c cs ih =>
    intro m h
    rw [searchActivation] at h
    cases hm : matchActivationAt (c :: cs) with
    | some m2 =>
      rw [hm] at h
      simp only [Option.some.injEq] at h
      subst h
      exact ⟨0, by rw [List.drop_zero]; exact hm,
        fun j hj => absurd hj (Nat.not_lt_zero j)⟩
    | none =>
      rw [hm] at h
      simp only [] at h
      obtain ⟨i, hi, hj⟩ := ih m h
      refine ⟨i + 1, by rw [List.drop_succ_cons]; exact hi, ?_⟩
      intro j hj2
      cases j with
      | zero => rw [List.drop_zero]; exact hm
      | succ j2 =>
        rw [List.drop_succ_cons]
        exact hj j2 (Nat.lt_of_succ_lt_succ hj2)

/-- A mailbox message as returned by the inbox endpoint. The Python dict
fields are `from`, `body_text`, `body`, `text` and `body_html`; `from` is a
Lean keyword, so it is named `sender` here. A missing field is `none`. -/
structure Message where
  sender : Option (List Char)
  body_text : Option (List Char)
  body : Option (List Char)
  text : Option (List Char)
  body_html : Option (List Char)

/-- Python `a or b` on an optional string: falls through when `a` is `None`
or empty. -/
def pyOrStr (a : Option (List Char)) (b : List Char) : List Char :=
  match a with
  | some s => if s.isEmpty then b else s
  | none => b

/-- The body chosen by the inbox scan:
`msg.get("body_text") or msg.get("body") or msg.get("text") or
msg.get("body_html") or ""`. -/
def messageBody (m : Message) : List Char :=
  pyOrStr m.body_text (pyOrStr m.body (pyOrStr m.text (pyOrStr m.body_html [])))

/-- The body fields in their fixed priority order. -/
def bodyFields (m : Message) : List (Option (List Char)) :=
  [m.body_text, m.body, m.text, m.body_html]

theorem pyOrStr_chain (fields : List (Option (List Char))) :
    fields.foldr pyOrStr []
      = ((fields.filterMap id).filter (fun s => !s.isEmpty)).headD [] := by
  induction fields with
  | nil => rfl
  | cons a t ih =>
    cases a with
    | none => simpa [List.filterMap_cons] using ih
    | some s =>
      cases hs : s.isEmpty with
      | true => simp [List.filterMap_cons, List.filter_cons, hs, pyOrStr, List.foldr_cons, ih]
      | false => simp [List.filterMap_cons, List.filter_cons, hs, pyOrStr, List.foldr_cons]

theorem messageBody_spec (msg : Message) : messageBody msg
    = (((bodyFields msg).filterMap id).filter (fun s => !s.isEmpty)).headD [] :=
  pyOrStr_chain [msg.body_text, msg.body, msg.text, msg.body_html]

/-- C4: extraction returns `none` exactly when no offset of the body matches
the activation pattern; a returned link is the text matched at the first
matching offset; and the scanned body is the first populated field in the
priority order `body_text`, `body`, `text`, `body_html`. -/
theorem extraction_first_match (body : List Char) :
    (extract_activation_link (some body) = none ↔ ∀ i, ¬ ActivationMatchAt body i) ∧
    (∀ m, extract_activation_link (some body) = some m →
      ∃ i, ActivationMatchAt body i ∧ m = activationTextAt body i ∧
        ∀ j < i, ¬ ActivationMatchAt body j) ∧
    (∀ msg : Message, messageBody msg
        = (((bodyFields msg).filterMap id).filter (fun s => !s.isEmpty)).headD []) := by
  refine ⟨?_, ?_, messageBody_spec⟩
  · rw [extract_activation_link, Option.getD_some, searchActivation_none_iff]
    constructor
    · intro h i
      exact matchActivationAt_none_iff.1 (h i)
    · intro h i
      exact matchActivationAt_none_iff.2 (h i)
  · intro m h
    rw [extract_activation_link, Option.getD_some] at h
    obtain ⟨i, hi, hj⟩ := searchActivation_some body m h
    obtain ⟨h1, h2, h3, hm⟩ := matchActivationAt_eq_some.1 hi
    refine ⟨i, ⟨h1, h2, h3⟩, hm, ?_⟩
    intro j hlt
    exact matchActivationAt_none_iff.1 (hj j hlt)

/-- A concrete body for the C4 witness, with the link embedded mid-text. -/
def witnessBody : List Char :=
  "note https://filen.io/activate/0123456789abcdef0123456789abcdef end".toList

/-- The link that extraction should find in `witnessBody`. -/
def witnessLink : List Char :=
  "https://filen.io/activate/0123456789abcdef0123456789abcdef".toList

/-- Witness for C4: on a concrete body with one embedded link, extraction
returns it and it is the first matching offset; a patternless body yields
`none`. -/
theorem extraction_first_match_witness :
    (∃ i, ActivationMatchAt witnessBody i ∧ witnessLink = activationTextAt witnessBody i ∧
      ∀ j < i, ¬ ActivationMatchAt witnessBody j) ∧
    (extract_activation_link (some "no link here".toList) = none
      ↔ ∀ i, ¬ ActivationMatchAt "no link here".toList i) :=
  ⟨(extraction_first_match witnessBody).2.1 witnessLink (by decide),
    (extraction_first_match "no link here".toList).1⟩

/-! ### Inbox polling: `TempMailService.check_inbox_for_activation_link` -/

/-- Python constant `INBOX_POLL_INTERVAL = 5.0`: seconds slept between poll
attempts (the value is exactly representable, modelled as a rational). -/
def INBOX_POLL_INTERVAL : ℚ := 5

/-- Python constant `INBOX_MAX_ATTEMPTS = 60` (up to 5 minutes), the default
`max_attempts` of `check_inbox_for_activation_link`. -/
def INBOX_MAX_ATTEMPTS : Nat := 60

/-- The brand token looked for in the sender field. -/
def filenToken : List Char := "filen".toList

/-- The sender check `"filen" in (msg.get("from") or "").lower()`. -/
def senderIsFilen (m : Message) : Bool :=
  hasSubstr filenToken ((m.sender.getD []).map Char.toLower)

/-- The scan of one fetched message list: for each message from the brand,
extract an activation link from its body; return the first link found. -/
def scanMessages : List Message → Option (List Char)
  | [] => none
  | m :: ms =>
    if senderIsFilen m then
      match extract_activation_link (some (messageBody m)) with
      | some a => some a
      | none => scanMessages ms
    else scanMessages ms

/-- Outcome of the HTTP fetch of one poll attempt: an exception (timeout,
non-success status, malformed JSON), or a message list. -/
inductive FetchResult
  | err
  | ok (msgs : List Message)

/-- Result of a polling run, instrumented with the number of fetch attempts
performed and the number of `time.sleep(INBOX_POLL_INTERVAL)` calls made. -/
structure PollOutcome where
  result : Option (List Char)
  fetches : Nat
  sleeps : Nat

/-- What poll attempt `a` yields: `none` on a transport error or when the
fetched messages contain no activation link. -/
def attemptHit (fetch : Nat → FetchResult) (a : Nat) : Option (List Char) :=
  match fetch a with
  | .err => none
  | .ok msgs => scanMessages msgs

/-- The `for attempt in range(1, max_attempts + 1)` loop: attempt `a` with
`r` attempts remaining. A found link returns immediately (one fetch, no
sleep); an error is logged and sleeps; a miss sleeps; both continue. -/
def pollLoop (fetch : Nat → FetchResult) : Nat → Nat → PollOutcome
  | _, 0 => ⟨none, 0, 0⟩
  | a, r + 1 =>
    match fetch a with
    | .err =>
      ⟨(pollLoop fetch (a + 1) r).result, (pollLoop fetch (a + 1) r).fetches + 1,
        (pollLoop fetch (a + 1) r).sleeps + 1⟩
    | .ok msgs =>
      match scanMessages msgs with
      | some link => ⟨some link, 1, 0⟩
      | none =>
        ⟨(pollLoop fetch (a + 1) r).result, (pollLoop fetch (a + 1) r).fetches + 1,
          (pollLoop fetch (a + 1) r).sleeps + 1⟩

/-- Python `check_inbox_for_activation_link`: returns `None` at once when no
email is set (`if not self.email`), otherwise polls attempts 1 to
`max_attempts`. -/
def check_inbox_for_activation_link (email : Option (List Char))
    (fetch : Nat → FetchResult) (max_attempts : Nat) : PollOutcome :=
  if (email.getD []).isEmpty then ⟨none, 0, 0⟩
  else pollLoop fetch 1 max_attempts

theorem pollLoop_succ_err {fetch : Nat → FetchResult} {a r : Nat}
    (hf : fetch a = FetchResult.err) :
    pollLoop fetch a (r + 1) =
      ⟨(pollLoop fetch (a + 1) r).result, (pollLoop fetch (a + 1) r).fetches + 1,
        (pollLoop fetch (a + 1) r).sleeps + 1⟩ := by
  rw [pollLoop, hf]

theorem pollLoop_succ_hit {fetch : Nat → FetchResult} {a r : Nat} {msgs : List Message}
    {link : List Char} (hf : fetch a = FetchResult.ok msgs)
    (hs : scanMessages msgs = some link) :
    pollLoop fetch a (r + 1) = ⟨some link, 1, 0⟩ := by
  rw [pollLoop, hf]
  simp only [hs]

theorem pollLoop_succ_miss {fetch : Nat → FetchResult} {a r : Nat} {msgs : List Message}
    (hf : fetch a = FetchResult.ok msgs) (hs : scanMessages msgs = none) :
    pollLoop fetch a (r + 1) =
      ⟨(pollLoop fetch (a + 1) r).result, (pollLoop fetch (a + 1) r).fetches + 1,
        (pollLoop fetch (a + 1) r).sleeps + 1⟩ := by
  rw [pollLoop, hf]
  simp only [hs]

theorem pollLoop_fetches_le : ∀ (r a : Nat) (fetch : Nat → FetchResult),
    (pollLoop fetch a r).fetches ≤ r := by
  intro r
  induction r with
  | zero => intro a fetch; exact Nat.le_refl 0
  | succ r ih =>
    intro a fetch
    cases hf : fetch a with
    | err =>
      rw [pollLoop_succ_err hf]
      exact Nat.succ_le_succ (ih (a + 1) fetch)
    | ok msgs =>
      cases hs : scanMessages msgs with
      | some link =>
        rw [pollLoop_succ_hit hf hs]
        exact Nat.succ_le_succ (Nat.zero_le r)
      | none =>
        rw [pollLoop_succ_miss hf hs]
        exact Nat.succ_le_succ (ih (a + 1) fetch)

theorem pollLoop_all_miss : ∀ (r a : Nat) (fetch : Nat → FetchResult),
    (∀ b, a ≤ b → b < a + r → attemptHit fetch b = none) →
    pollLoop fetch a r = ⟨none, r, r⟩ := by
  intro r
  induction r with
  | zero => intro a fetch _; rfl
  | succ r ih =>
    intro a fetch hmiss
    have ha : attemptHit fetch a = none := hmiss a (Nat.le_refl a) (by omega)
    have hrec : pollLoop fetch (a + 1) r = ⟨none, r, r⟩ :=
      ih (a + 1) fetch (fun b hb1 hb2 => hmiss b (by omega) (by omega))
    cases hf : fetch a with
    | err =>
      rw [pollLoop_succ_err hf, hrec]
    | ok msgs =>
      have hs : scanMessages msgs = none := by
        rw [attemptHit, hf] at ha
        exact ha
      rw [pollLoop_succ_miss hf hs, hrec]

theorem pollLoop_some : ∀ (r a : Nat) (fetch : Nat → FetchResult) (link : List Char),
    (pollLoop fetch a r).result = some link →
      ∃ b, a ≤ b ∧ b < a + r ∧ attemptHit fetch b = some link ∧
        (∀ c, a ≤ c → c < b → attemptHit fetch c = none) ∧
        (pollLoop fetch a r).fetches = b - a + 1 ∧
        (pollLoop fetch a r).sleeps = b - a := by
  intro r
  induction r with
  | zero => intro a fetch link h; cases h
  | succ r ih =>
    intro a fetch link h
    cases hf : fetch a with
    | err =>
      rw [pollLoop_succ_err hf] at h ⊢
      simp only [] at h
      obtain ⟨b, hb1, hb2, hbhit, hbearly, hbf, hbs⟩ := ih (a + 1) fetch link h
      refine ⟨b, by omega, by omega, hbhit, ?_, ?_, ?_⟩
      · intro c hc1 hc2
        rcases Nat.eq_or_lt_of_le hc1 with rfl | hlt
        · rw [attemptHit, hf]
        · exact hbearly c (by omega) hc2
      · simp only [hbf]; omega
      · simp only [hbs]; omega
    | ok msgs =>
      cases hs : scanMessages msgs with
      | some link2 =>
        rw [pollLoop_succ_hit hf hs] at h ⊢
        simp only [Option.some.injEq] at h
        subst h
        refine ⟨a, Nat.le_refl a, by omega, ?_, ?_, ?_, ?_⟩
        · rw [attemptHit, hf]; exact hs
        · intro c hc1 hc2; omega
        · show 1 = a - a + 1
          omega
        · show 0 = a - a
          omega
      | none =>
        rw [pollLoop_succ_miss hf hs] at h ⊢
        simp only [] at h
        obtain ⟨b, hb1, hb2, hbhit, hbearly, hbf, hbs⟩ := ih (a + 1) fetch link h
        refine ⟨b, by omega, by omega, hbhit, ?_, ?_, ?_⟩
        · intro c hc1 hc2
          rcases Nat.eq_or_lt_of_le hc1 with rfl | hlt
          · rw [attemptHit, hf]; exact hs
          · exact hbearly c (by omega) hc2
        · simp only [hbf]; omega
        · simp only [hbs]; omega

/-- C5: with an email set, polling performs at most `max_attempts` fetches;
a returned link is the one found by the first hitting attempt `a`, reached
after exactly `a` fetches and `a - 1` sleeps (immediate return, no further
polling); if no attempt hits — transport errors included, each counting as
one attempt followed by one sleep — the poll returns `none` after exactly
`max_attempts` fetches and sleeps; an erroring attempt always passes control
to the next attempt with one more fetch and one more sleep; the script's
defaults are 60 attempts at 5-second intervals. -/
theorem inbox_polling (fetch : Nat → FetchResult) (max_attempts : Nat) (email : List Char)
    (hne : email ≠ []) :
    (check_inbox_for_activation_link (some email) fetch max_attempts).fetches
        ≤ max_attempts ∧
    (∀ link,
      (check_inbox_for_activation_link (some email) fetch max_attempts).result = some link →
      ∃ a, 1 ≤ a ∧ a ≤ max_attempts ∧ attemptHit fetch a = some link ∧
        (∀ b, 1 ≤ b → b < a → attemptHit fetch b = none) ∧
        (check_inbox_for_activation_link (some email) fetch max_attempts).fetches = a ∧
        (check_inbox_for_activation_link (some email) fetch max_attempts).sleeps = a - 1) ∧
    ((∀ a, 1 ≤ a → a ≤ max_attempts → attemptHit fetch a = none) →
      check_inbox_for_activation_link (some email) fetch max_attempts
        = ⟨none, max_attempts, max_attempts⟩) ∧
    (∀ a r, fetch a = FetchResult.err →
      pollLoop fetch a (r + 1) =
        ⟨(pollLoop fetch (a + 1) r).result, (pollLoop fetch (a + 1) r).fetches + 1,
          (pollLoop fetch (a + 1) r).sleeps + 1⟩) ∧
    INBOX_MAX_ATTEMPTS = 60 ∧ INBOX_POLL_INTERVAL = 5 := by
  have hopen : check_inbox_for_activation_link (some email) fetch max_attempts
      = pollLoop fetch 1 max_attempts := by
    rw [check_inbox_for_activation_link, Option.getD_some, if_neg]
    simp [hne]
  rw [hopen]
  refine ⟨pollLoop_fetches_le max_attempts 1 fetch, ?_, ?_,
    fun a r hf => pollLoop_succ_err hf, rfl, rfl⟩
  · intro link h
    obtain ⟨b, hb1, hb2, hbhit, hbearly, hbf, hbs⟩ := pollLoop_some max_attempts 1 fetch link h
    refine ⟨b, hb1, by omega, hbhit, fun c hc1 hc2 => hbearly c hc1 hc2, ?_, ?_⟩
    · rw [hbf]; omega
    · rw [hbs]
  · intro hmiss
    exact pollLoop_all_miss max_attempts 1 fetch (fun b hb1 hb2 => hmiss b hb1 (by omega))

/-- A message from the brand carrying the witness body, for the C5 witness. -/
def witnessMsg : Message :=
  ⟨some "no-reply@Filen.io".toList, some witnessBody, none, none, none⟩

/-- A fetch schedule for the C5 witness: attempts 1 errors, attempt 2
returns the message carrying the link. -/
def witnessFetch : Nat → FetchResult :=
  fun a => if a = 2 then FetchResult.ok [witnessMsg] else FetchResult.err

/-- Witness for C5: under `witnessFetch` the poll returns the link found at
attempt 2, after exactly 2 fetches (the transport error of attempt 1
counted) and 1 sleep. -/
theorem inbox_polling_witness :
    ∃ a, 1 ≤ a ∧ a ≤ 5 ∧ attemptHit witnessFetch a = some witnessLink ∧
      (∀ b, 1 ≤ b → b < a → attemptHit witnessFetch b = none) ∧
      (check_inbox_for_activation_link (some "user@tmp".toList) witnessFetch 5).fetches = a ∧
      (check_inbox_for_activation_link (some "user@tmp".toList) witnessFetch 5).sleeps = a - 1 :=
  (inbox_polling witnessFetch 5 "user@tmp".toList (by decide)).2.1 witnessLink (by decide)

/-- C10: polling invoked before any mailbox address has been issued
(`self.email` still `None`) returns `None` immediately: zero fetch attempts
and zero sleeps, for every fetch behaviour and attempt budget. -/
theorem inbox_no_email (fetch : Nat → FetchResult) (max_attempts : Nat) :
    check_inbox_for_activation_link none fetch max_attempts
      = ⟨none, 0, 0⟩ := rfl

/-! ### Per-job flow: `generate_email` and `create_single_account` -/

/-- Outcome of the identity-issuance HTTP call: `err` is any raised
exception (timeout, `raise_for_status` on a non-success status, malformed
JSON); `ok` carries the `email` field of the parsed response (`none` when
the field is missing). -/
inductive HttpResult
  | err
  | ok (email : Option (List Char))

/-- Python `TempMailService.generate_email`: on an exception or a response
whose `email` field is missing, empty, or lacks `'@'`, returns
`(None, None, None)`, modelled as `none`; otherwise the email together with
its username/domain parts split at the first `'@'`
(`email.split("@", 1)`). -/
def generate_email (resp : HttpResult) : Option (List Char × List Char × List Char) :=
  match resp with
  | .err => none
  | .ok none => none
  | .ok (some e) =>
    if e ≠ [] ∧ e.contains '@' = true then
      some (e, e.takeWhile (· ≠ '@'), (e.dropWhile (· ≠ '@')).tail)
    else none

/-- Result of one provisioning job: the boolean returned by
`create_single_account`, the `try_create_account` calls made (attempt
number with the email and password passed), and the `email:password` pairs
appended to `accounts.txt` by `save_account`. -/
structure JobRun where
  success : Bool
  attempts : List (Nat × List Char × List Char)
  saved : List (List Char × List Char)

/-- Python `create_single_account`: issue an identity (failing the job at
once if issuance fails), then run `try_create_account` for
`attempt in range(1, 3)` with the same email and password, stopping at the
first success, which appends exactly one line via `save_account`;
`tryAcc a email password` is the outcome of the browser workflow on
attempt `a`. -/
def create_single_account (resp : HttpResult) (password : List Char)
    (tryAcc : Nat → List Char → List Char → Bool) : JobRun :=
  match generate_email resp with
  | none => ⟨false, [], []⟩
  | some (email, _, _) =>
    if tryAcc 1 email password then
      ⟨true, [(1, email, password)], [(email, password)]⟩
    else if tryAcc 2 email password then
      ⟨true, [(1, email, password), (2, email, password)], [(email, password)]⟩
    else
      ⟨false, [(1, email, password), (2, email, password)], []⟩

/-- C3: every job makes at most 2 workflow attempts, all of them with the
same email and the same password; exactly one line is appended to the
accounts store iff some attempt succeeded, zero for a failed job; and the
job's boolean result is true iff an attempt it made succeeded. -/
theorem job_retry_policy (resp : HttpResult) (password : List Char)
    (tryAcc : Nat → List Char → List Char → Bool) :
    (create_single_account resp password tryAcc).attempts.length ≤ 2 ∧
    (∀ x ∈ (create_single_account resp password tryAcc).attempts,
      ∀ y ∈ (create_single_account resp password tryAcc).attempts, x.2 = y.2) ∧
    (∀ x ∈ (create_single_account resp password tryAcc).attempts, x.2.2 = password) ∧
    ((create_single_account resp password tryAcc).success = true ↔
      (create_single_account resp password tryAcc).saved.length = 1) ∧
    ((create_single_account resp password tryAcc).success = false →
      (create_single_account resp password tryAcc).saved = []) ∧
    ((create_single_account resp password tryAcc).success = true ↔
      ∃ x ∈ (create_single_account resp password tryAcc).attempts,
        tryAcc x.1 x.2.1 x.2.2 = true) := by
  unfold create_single_account
  cases hg : generate_email resp with
  | none =>
    simp
  | some triple =>
    obtain ⟨email, u, d⟩ := triple
    by_cases h1 : tryAcc 1 email password
    · simp [h1]
    · by_cases h2 : tryAcc 2 email password
      · simp [h1, h2]
      · simp [h1, h2]

/-- Witness for C3 on a job whose first attempt fails and second succeeds:
two attempts, one saved line, successful outcome. -/
theorem job_retry_policy_witness :
    (create_single_account (HttpResult.ok (some "a@b".toList)) "pw".toList
        (fun a _ _ => a == 2)).attempts.length ≤ 2 ∧
      ((create_single_account (HttpResult.ok (some "a@b".toList)) "pw".toList
        (fun a _ _ => a == 2)).success = true ↔
        (create_single_account (HttpResult.ok (some "a@b".toList)) "pw".toList
          (fun a _ _ => a == 2)).saved.length = 1) :=
  ⟨(job_retry_policy (HttpResult.ok (some "a@b".toList)) "pw".toList (fun a _ _ => a == 2)).1,
    (job_retry_policy (HttpResult.ok (some "a@b".toList)) "pw".toList
      (fun a _ _ => a == 2)).2.2.2.1⟩

/-- C7: if identity issuance fails, the job returns failure immediately with
zero workflow attempts and zero appends; and issuance fails on a transport
error, on a response without the `email` field, and on an email lacking
`'@'` (or empty). -/
theorem issuance_failure_fails_job (resp : HttpResult) (password : List Char)
    (tryAcc : Nat → List Char → List Char → Bool)
    (h : generate_email resp = none) :
    create_single_account resp password tryAcc = ⟨false, [], []⟩ ∧
    generate_email HttpResult.err = none ∧
    generate_email (HttpResult.ok none) = none ∧
    (∀ e : List Char, e.contains '@' = false → generate_email (HttpResult.ok (some e)) = none) := by
  refine ⟨?_, rfl, rfl, ?_⟩
  · unfold create_single_account
    rw [h]
  · intro e hat
    simp only [generate_email]
    rw [if_neg]
    intro hcond
    rw [hcond.2] at hat
    cases hat

/-- Witness for C7: a transport error during issuance yields a failed job
with zero attempts and nothing saved. -/
theorem issuance_failure_fails_job_witness :
    create_single_account HttpResult.err "pw".toList (fun _ _ _ => true)
        = ⟨false, [], []⟩ ∧
      generate_email (HttpResult.ok (some "no-at-sign".toList)) = none :=
  ⟨(issuance_failure_fails_job HttpResult.err "pw".toList (fun _ _ _ => true) rfl).1,
    (issuance_failure_fails_job HttpResult.err "pw".toList (fun _ _ _ => true) rfl).2.2.2
      "no-at-sign".toList (by decide)⟩

/-! ### Run parameters: the `int(input())` prompts in `main` -/

/-- Decimal digit-string value: `none` unless the list is one or more ASCII
digits; models the core of Python `int()`. -/
def digitsVal (l : List Char) : Option Nat :=
  if l ≠ [] ∧ l.all Char.isDigit = true then
    some (l.foldl (fun acc c => acc * 10 + (c.toNat - '0'.toNat)) 0)
  else none

/-- Python `int(s)` on an already-stripped string (both prompts in `main`
call `.strip()` first): an optional sign followed by decimal digits parses
to the signed value; anything else raises `ValueError`, modelled as
`none`. -/
def pyParseInt (s : List Char) : Option Int :=
  match s with
  | '+' :: t => (digitsVal t).map (fun n => (n : Int))
  | '-' :: t => (digitsVal t).map (fun n => -(n : Int))
  | t => (digitsVal t).map (fun n => (n : Int))

/-- The `try: ... = int(input(...).strip()) except ValueError: ... = 1`
pattern used in `main` for both the account count and the thread count. -/
def parseCountInput (s : List Char) : Int :=
  (pyParseInt s).getD 1

/-- Counterexample to C9: the user input `"0"` parses as a valid integer,
so the run is created with `total_accounts = 0`, violating
`totalJobs ≥ 1`; the default of 1 applies only when `int()` raises
`ValueError`. -/
theorem run_params_counterexample : ¬ (1 ≤ parseCountInput "0".toList) := by decide

/-- C9 (amended): each count defaults to 1 exactly when the input fails to
parse as an integer — so `totalJobs ≥ 1` and `workerCount ≥ 1` hold for
every non-integer input — while an input that parses to an integer is used
as-is, even when it is zero or negative. -/
theorem run_params_default (s : List Char) :
    (pyParseInt s = none → parseCountInput s = 1) ∧
    (∀ v, pyParseInt s = some v → parseCountInput s = v) := by
  constructor
  · intro h
    rw [parseCountInput, h]
    rfl
  · intro v h
    rw [parseCountInput, h]
    rfl

/-- Witness for C9 (amended): `"abc"` raises and defaults to 1; `"0"`
parses and is used as-is. -/
theorem run_params_default_witness :
    parseCountInput "abc".toList = 1 ∧ parseCountInput "0".toList = 0 :=
  ⟨(run_params_default "abc".toList).1 (by decide),
    (run_params_default "0".toList).2 0 (by decide)⟩

/-! ### Worker pool: `thread_worker` and result aggregation in `main` -/

/-- Global state of the threaded run: the shared job queue (`Queue`), the
private `local_results` lists of the workers still running, and the shared
`results` list. A recorded outcome is represented by its job's index; the
boolean the workflow produced for job `i` is recovered through a
deterministic outcome oracle when counting. -/
structure SysState where
  queue : List Nat
  active : List (List Nat)
  results : List Nat

/-- One atomic transition of the worker pool, `thread_worker` interleaving.
`dequeue`: a running worker (local list `mid`) atomically takes the next
job off the shared queue (`Queue.get_nowait`), runs it, and appends the
outcome to its private local list. `finish`: a worker observes the queue
empty, leaves its loop, and appends its local results to the shared list in
one `results.extend(local_results)` call. -/
inductive WorkerStep : SysState → SysState → Prop
  | dequeue (j : Nat) (rest : List Nat) (pre post : List (List Nat))
      (mid : List Nat) (res : List Nat) :
      WorkerStep ⟨j :: rest, pre ++ mid :: post, res⟩
        ⟨rest, pre ++ (mid ++ [j]) :: post, res⟩
  | finish (pre post : List (List Nat)) (mid : List Nat) (res : List Nat) :
      WorkerStep ⟨[], pre ++ mid :: post, res⟩ ⟨[], pre ++ post, res ++ mid⟩

/-- The start state of `main`'s threaded phase: jobs `1..totalJobs`
enqueued in order (`range(1, total_accounts + 1)`), `workerCount` workers
with empty local lists, and an empty shared `results`. -/
def initSys (totalJobs workerCount : Nat) : SysState :=
  ⟨List.range' 1 totalJobs, List.replicate workerCount [], []⟩

/-- Reachability under interleaved worker steps. -/
def SysReaches : SysState → SysState → Prop :=
  Relation.ReflTransGen WorkerStep

theorem workerStep_count {s t : SysState} (h : WorkerStep s t) (a : Nat) :
    (t.queue ++ t.active.flatten ++ t.results).count a
      = (s.queue ++ s.active.flatten ++ s.results).count a := by
  cases h with
  | dequeue j rest pre post mid res =>
    by_cases haj : a = j
    · simp [haj, List.count_append, List.count_cons, List.flatten_append]
      omega
    · simp [haj, List.count_append, List.count_cons, List.flatten_append]
  | finish pre post mid res =>
    simp only [List.count_append, List.flatten_append, List.flatten_cons, List.count_nil]
    omega

theorem sysReaches_count {s0 s : SysState} (h : SysReaches s0 s) (a : Nat) :
    (s.queue ++ s.active.flatten ++ s.results).count a
      = (s0.queue ++ s0.active.flatten ++ s0.results).count a := by
  induction h with
  | refl => rfl
  | tail h1 h2 ih =>
    rw [workerStep_count h2 a]
    exact ih

theorem workerStep_target_inv {s t : SysState} (h : WorkerStep s t) :
    t.active = [] → t.queue = [] := by
  cases h with
  | dequeue j rest pre post mid res =>
    intro hact
    exact absurd hact (by simp)
  | finish pre post mid res =>
    intro _
    rfl

theorem sysReaches_empty_queue {totalJobs workerCount : Nat} (hW : 1 ≤ workerCount)
    {s : SysState} (h : SysReaches (initSys totalJobs workerCount) s)
    (hdone : s.active = []) : s.queue = [] := by
  rcases Relation.ReflTransGen.cases_tail h with heq | ⟨c, _, hstep⟩
  · rw [heq] at hdone
    simp [initSys, List.replicate_eq_nil_iff] at hdone
    omega
  · exact workerStep_target_inv hstep hdone

/-- C2: whenever `workerCount ≥ 1` workers have drained the queue of
`totalJobs` jobs to completion (every worker has published its local
results), the shared `results` list is a permutation of the job list: for
any deterministic per-job workflow outcome `succ`, the final succeeded
count equals the number of jobs whose workflow succeeded, and every job is
recorded exactly once — no duplicate and no lost result — for every
interleaving of the workers. -/
theorem worker_results_exact (totalJobs workerCount : Nat) (hW : 1 ≤ workerCount)
    (s : SysState) (h : SysReaches (initSys totalJobs workerCount) s)
    (hdone : s.active = []) (succ : Nat → Bool) :
    s.results.Perm (List.range' 1 totalJobs) ∧
    s.results.countP succ = (List.range' 1 totalJobs).countP succ ∧
    (∀ i, s.results.count i = (List.range' 1 totalJobs).count i) := by
  have hqueue : s.queue = [] := sysReaches_empty_queue hW h hdone
  have hperm : s.results.Perm (List.range' 1 totalJobs) := by
    apply List.perm_iff_count.2
    intro a
    have hc := sysReaches_count h a
    rw [hdone, hqueue] at hc
    simpa [initSys] using hc
  exact ⟨hperm, hperm.countP_eq succ, fun i => hperm.count_eq i⟩

/-- Witness for C2 with one worker and one job: dequeue job 1, then observe
the queue empty and publish; the final `results` is exactly `[1]`. -/
theorem worker_results_exact_witness :
    (SysState.mk [] [] [1]).results.Perm (List.range' 1 1) ∧
      (SysState.mk [] [] [1]).results.countP (fun _ => true)
        = (List.range' 1 1).countP (fun _ => true) ∧
      (∀ i, (SysState.mk [] [] [1]).results.count i = (List.range' 1 1).count i) := by
  have step1 : WorkerStep ⟨[1], [[]], []⟩ ⟨[], [[1]], []⟩ :=
    WorkerStep.dequeue 1 [] [] [] [] []
  have step2 : WorkerStep ⟨[], [[1]], []⟩ ⟨[], [], [1]⟩ :=
    WorkerStep.finish [] [] [1] []
  have trace : SysReaches (initSys 1 1) ⟨[], [], [1]⟩ :=
    Relation.ReflTransGen.head step1 (Relation.ReflTransGen.single step2)
  exact worker_results_exact 1 1 (Nat.le_refl 1) ⟨[], [], [1]⟩ trace rfl (fun _ => true)
